import Mathlib

/-
  Verification of the ledger / scheduling engine of the expense-tracker
  application (src/app.py) against its natural-language specification.

  Modelling conventions:
  * Monetary amounts are modelled as exact rationals (ℚ).  The Python code
    manipulates them as numbers with ordinary field arithmetic; ℚ captures
    that arithmetic exactly.
  * Database rows become Lean structures; the three tables (accounts,
    transactions, schedule) that the ledger mutates are collected in
    `LedgerState`.  Balances are a map from account id to balance, because
    `update_balance` reads and writes the balance of a single account id.
  * Python `None` becomes `Option.none`; Python truthiness of an id
    (`if not account_id`) treats both `None` and `0` as falsy, which is
    mirrored by `update_balance` and `truthyId`.
  * Remarks are strings; the batch tag machinery of `delete_transaction`
    (`remark.find("[Batch:")`, `ilike '%tag%'`) is modelled character by
    character on `List Char`, with `ilike` as case-insensitive (ASCII)
    substring containment.
  * Dates are (year, month, day) triples ordered lexicographically, which
    agrees with the string comparison `next_run_date <= today_str` on
    ISO-formatted dates used by the code.  `timedelta` / `relativedelta`
    date stepping (with month-end clamping) is modelled explicitly.
-/

namespace ExpenseTracker

/-! ### Dates -/

structure Date where
  year : Nat
  month : Nat
  day : Nat
deriving DecidableEq

/-- Date comparison `d1 <= d2`; lexicographic, matching ISO date-string
comparison used by the `lte`/`gte` queries in the code. -/
def dle (d1 d2 : Date) : Bool :=
  decide (d1.year < d2.year) ||
    (decide (d1.year = d2.year) &&
      (decide (d1.month < d2.month) ||
        (decide (d1.month = d2.month) && decide (d1.day ≤ d2.day))))

/-- Strict date comparison `d1 < d2`. -/
def dlt (d1 d2 : Date) : Bool :=
  dle d1 d2 && decide (d1 ≠ d2)

def isLeap (y : Nat) : Bool :=
  (decide (y % 4 = 0) && decide (y % 100 ≠ 0)) || decide (y % 400 = 0)

def daysInMonth (y m : Nat) : Nat :=
  if m = 2 then (if isLeap y then 29 else 28)
  else if m = 4 ∨ m = 6 ∨ m = 9 ∨ m = 11 then 30
  else 31

def nextDay (d : Date) : Date :=
  if d.day < daysInMonth d.year d.month then ⟨d.year, d.month, d.day + 1⟩
  else if d.month < 12 then ⟨d.year, d.month + 1, 1⟩
  else ⟨d.year + 1, 1, 1⟩

/-- `date + timedelta(days = n)`. -/
def addDays (d : Date) : Nat → Date
  | 0 => d
  | n + 1 => addDays (nextDay d) n

/-- `date + relativedelta(months = 1)`: advance the month, clamping the
day-of-month to the length of the target month. -/
def addMonths1 (d : Date) : Date :=
  let y2 := if d.month = 12 then d.year + 1 else d.year
  let m2 := if d.month = 12 then 1 else d.month + 1
  ⟨y2, m2, min d.day (daysInMonth y2 m2)⟩

/-- `date + relativedelta(years = 1)`, clamping Feb 29 to Feb 28. -/
def addYears1 (d : Date) : Date :=
  ⟨d.year + 1, d.month, min d.day (daysInMonth (d.year + 1) d.month)⟩

/-! ### Enumerations and rows -/

/-- Transaction types that the code ever persists in the `transactions`
table (the `type` column). -/
inductive TxType where
  | Expense
  | VirtualExpense
  | Income
  | VirtualFunding
  | Transfer
  | IncreaseLoan
deriving DecidableEq

/-- Account types (the `accounts.type` column). -/
inductive AccType where
  | Bank
  | CreditCard
  | Custodial
  | SinkingFund
  | Loan
  | Investment
  | Receivable
deriving DecidableEq

/-- Schedule frequencies (the `schedule.frequency` column). -/
inductive Freq where
  | OneTime
  | Daily
  | Weekly
  | Monthly
  | Yearly
deriving DecidableEq

/-- A row of the `transactions` table. -/
structure Tx where
  id : Nat
  date : Date
  amount : ℚ
  description : String
  type : TxType
  fromAccountId : Option Nat
  toAccountId : Option Nat
  category : String
  remark : String
deriving DecidableEq

/-- A row of the `schedule` table.  `type` is nullable: rows created by the
Schedule page have no stored type, rows created by the future-dating path of
`process_transaction` do. -/
structure ScheduleEntry where
  id : Nat
  description : String
  amount : ℚ
  type : Option TxType
  from_account_id : Option Nat
  to_account_id : Option Nat
  frequency : Freq
  next_run_date : Date
  is_manual : Bool
  category : String
deriving DecidableEq

/-- A row of the `accounts` table (the columns the ledger and the
aggregation views read). -/
structure Account where
  id : Nat
  name : String
  type : AccType
  balance : ℚ
  currency : String
  manual_exchange_rate : ℚ
  include_net_worth : Bool
  is_liquid_asset : Bool
  goal_amount : ℚ
  goal_date : Option Date
  is_active : Bool
  remark : String
deriving DecidableEq

/-- The mutable database state touched by the ledger engine and scheduler.
`balances` is the `accounts.balance` column, indexed by account id;
`nextTxId` / `nextSchedId` model the auto-increment primary keys. -/
structure LedgerState where
  balances : Nat → ℚ
  transactions : List Tx
  schedule : List ScheduleEntry
  nextTxId : Nat
  nextSchedId : Nat

/-! ### String helpers for the batch tag -/

/-- Lowercase an ASCII letter (how `ilike` compares characters). -/
def lowerChar (c : Char) : Char :=
  if 'A' ≤ c ∧ c ≤ 'Z' then Char.ofNat (c.toNat + 32) else c

/-- Python `haystack.find(pat)`: index of the first occurrence of `pat`
in `r`, `none` when absent. -/
def findSub (r pat : List Char) : Option Nat :=
  (List.range (r.length + 1)).find? (fun i => decide ((r.drop i).take pat.length = pat))

/-- Python `pat in haystack`. -/
def containsSubB (r pat : List Char) : Bool :=
  (findSub r pat).isSome

/-- Supabase `ilike '%pat%'`: case-insensitive substring containment. -/
def ilikeContains (r pat : List Char) : Bool :=
  containsSubB (r.map lowerChar) (pat.map lowerChar)

def batchMark : List Char := ("[Batch:").toList

/-- The batch-tag extraction of `delete_transaction`:
`start = remark.find("[Batch:")`; `end = remark.find("]", start)`;
`batch_id = remark[start:end+1]` (or `None`). -/
def extractBatch (remark : List Char) : Option (List Char) :=
  match findSub remark batchMark with
  | none => none
  | some s =>
    match findSub (remark.drop s) ([']']) with
    | none => none
    | some e => some ((remark.drop s).take (e + 1))

/-! ### Core balance mutation (`update_balance`) and signed effects -/

/-- `update_balance(account_id, amount_change)` from src/app.py: a no-op on a
falsy id (`None` or `0`), otherwise read-modify-write of the balance. -/
def update_balance (bal : Nat → ℚ) (accountId : Option Nat) (amountChange : ℚ) : Nat → ℚ :=
  match accountId with
  | none => bal
  | some i => if i = 0 then bal else fun a => if a = i then bal i + amountChange else bal a

/-- Contribution of one balance update targeting `target` to account `a`. -/
def effOn (target : Option Nat) (a : Nat) (v : ℚ) : ℚ :=
  match target with
  | none => 0
  | some i => if i = 0 then 0 else if a = i then v else 0

/-- Signed effect of a transaction of type `ty`, accounts `fa`/`ta` and
amount `v` on the balance of account `a` — the effect table. -/
def txEff (ty : TxType) (fa ta : Option Nat) (v : ℚ) (a : Nat) : ℚ :=
  match ty with
  | .Expense => effOn fa a (-v)
  | .VirtualExpense => effOn fa a (-v)
  | .Income => effOn ta a v
  | .VirtualFunding => effOn ta a v
  | .IncreaseLoan => effOn ta a (-v)
  | .Transfer => effOn fa a (-v) + effOn ta a v

/-- Signed effect of a persisted transaction on the balance of account `a`. -/
def signedEffect (t : Tx) (a : Nat) : ℚ :=
  txEff t.type t.fromAccountId t.toAccountId t.amount a

/-- The balance updates performed by `add_transaction` after the insert
(the `if/elif` dispatch on the transaction type). -/
def applyTxEffect (bal : Nat → ℚ) (ty : TxType) (fa ta : Option Nat) (v : ℚ) : Nat → ℚ :=
  match ty with
  | .Expense => update_balance bal fa (-v)
  | .VirtualExpense => update_balance bal fa (-v)
  | .Income => update_balance bal ta v
  | .VirtualFunding => update_balance bal ta v
  | .IncreaseLoan => update_balance bal ta (-v)
  | .Transfer => update_balance (update_balance bal fa (-v)) ta v

/-- The inverse balance updates performed by `delete_transaction` for one
transaction being reversed. -/
def reverseTxEffect (bal : Nat → ℚ) (ty : TxType) (fa ta : Option Nat) (v : ℚ) : Nat → ℚ :=
  match ty with
  | .Expense => update_balance bal fa v
  | .VirtualExpense => update_balance bal fa v
  | .Income => update_balance bal ta (-v)
  | .VirtualFunding => update_balance bal ta (-v)
  | .IncreaseLoan => update_balance bal ta v
  | .Transfer => update_balance (update_balance bal fa v) ta (-v)

/-! ### Ledger operations -/

/-- `add_transaction` from src/app.py: insert the row, then apply the
type-dispatched balance update(s). -/
def add_transaction (s : LedgerState) (d : Date) (amount : ℚ) (description : String)
    (ty : TxType) (fa ta : Option Nat) (category remark : String) : LedgerState :=
  let tx : Tx :=
    { id := s.nextTxId, date := d, amount := amount, description := description,
      type := ty, fromAccountId := fa, toAccountId := ta,
      category := category, remark := remark }
  { s with
    transactions := s.transactions ++ [tx],
    balances := applyTxEffect s.balances ty fa ta amount,
    nextTxId := s.nextTxId + 1 }

/-- One iteration of the deletion loop of `delete_transaction`: apply the
inverse effect, then delete the row by id. -/
def reverseOne (s : LedgerState) (t : Tx) : LedgerState :=
  { s with
    balances := reverseTxEffect s.balances t.type t.fromAccountId t.toAccountId t.amount,
    transactions := s.transactions.filter (fun x => decide (x.id ≠ t.id)) }

/-- `delete_transaction(tx_id)` from src/app.py: load the transaction,
extract a batch tag from its remark; collect every transaction whose remark
contains the tag (`ilike '%tag%'`) or just the one transaction; reverse and
delete each.  Returns `false` when the id is unknown. -/
def delete_transaction (s : LedgerState) (txId : Nat) : LedgerState × Bool :=
  match s.transactions.find? (fun t => decide (t.id = txId)) with
  | none => (s, false)
  | some tx =>
    let toDelete : List Tx :=
      match extractBatch tx.remark.toList with
      | some b => s.transactions.filter (fun t => ilikeContains t.remark.toList b)
      | none => [tx]
    (toDelete.foldl reverseOne s, true)

/-- `process_transaction` from src/app.py: future-dated intents are routed
into the `schedule` table as a One-Time entry (with the remark folded into
the description); otherwise `add_transaction` runs immediately.  Returns
`true` when the intent was deferred. -/
def process_transaction (today : Date) (s : LedgerState) (txDate : Date) (amount : ℚ)
    (description : String) (ty : TxType) (fa ta : Option Nat)
    (category remark : String) : LedgerState × Bool :=
  if dlt today txDate then
    let entry : ScheduleEntry :=
      { id := s.nextSchedId,
        description := if remark = "" then description else description ++ " | Note: " ++ remark,
        amount := amount, type := some ty,
        from_account_id := fa, to_account_id := ta,
        frequency := .OneTime, next_run_date := txDate,
        is_manual := false, category := category }
    ({ s with schedule := s.schedule ++ [entry], nextSchedId := s.nextSchedId + 1 }, true)
  else
    (add_transaction s txDate amount description ty fa ta category remark, false)

/-! ### Scheduler (`process_scheduled_transactions`) -/

/-- Python truthiness of a nullable id column. -/
def truthyId : Option Nat → Bool
  | none => false
  | some i => decide (i ≠ 0)

/-- The transaction-type classification of `process_scheduled_transactions`:
default `Expense`; both accounts present ⇒ `Transfer`; to-account only ⇒
`Income`.  The stored `type` of the schedule entry is never consulted. -/
def classify (item : ScheduleEntry) : TxType :=
  if truthyId item.from_account_id && truthyId item.to_account_id then .Transfer
  else if truthyId item.to_account_id && !truthyId item.from_account_id then .Income
  else .Expense

/-- The transaction row inserted by the scheduler for a due entry.  The
insert dict has no `remark` key, so the row's remark is empty.  Note that
the scheduler performs no `update_balance` call. -/
def mkSchedTx (nid : Nat) (item : ScheduleEntry) : Tx :=
  { id := nid, date := item.next_run_date, description := item.description,
    amount := item.amount, type := classify item,
    fromAccountId := item.from_account_id, toAccountId := item.to_account_id,
    category := item.category, remark := "" }

/-- Date advance by frequency (`None` for One-Time, which is deleted). -/
def advanceDate : Freq → Date → Option Date
  | .Daily, d => some (addDays d 1)
  | .Weekly, d => some (addDays d 7)
  | .Monthly, d => some (addMonths1 d)
  | .Yearly, d => some (addYears1 d)
  | .OneTime, _ => none

/-- One iteration of the scheduler loop: insert the materialized
transaction, then delete the entry (One-Time) or advance its date. -/
def processItem (s : LedgerState) (item : ScheduleEntry) : LedgerState :=
  let s1 := { s with
    transactions := s.transactions ++ [mkSchedTx s.nextTxId item],
    nextTxId := s.nextTxId + 1 }
  match advanceDate item.frequency item.next_run_date with
  | none => { s1 with schedule := s1.schedule.filter (fun e => decide (e.id ≠ item.id)) }
  | some nd =>
    { s1 with schedule :=
        s1.schedule.map (fun e => if e.id = item.id then { e with next_run_date := nd } else e) }

/-- The due-entry snapshot (`next_run_date <= today`). -/
def dueEntries (today : Date) (s : LedgerState) : List ScheduleEntry :=
  s.schedule.filter (fun e => dle e.next_run_date today)

/-- `process_scheduled_transactions` from src/app.py: snapshot the due
entries, process each, return the number processed. -/
def process_scheduled_transactions (today : Date) (s : LedgerState) : LedgerState × Nat :=
  let due := dueEntries today s
  (due.foldl processItem s, due.length)

/-! ### Operation sequences for the global balance invariant -/

inductive LedgerOp where
  | add (d : Date) (amount : ℚ) (description : String) (ty : TxType)
      (fa ta : Option Nat) (category remark : String)
  | reverse (txId : Nat)

def applyOp (s : LedgerState) : LedgerOp → LedgerState
  | .add d amount description ty fa ta category remark =>
      add_transaction s d amount description ty fa ta category remark
  | .reverse txId => (delete_transaction s txId).1

def runOps (s : LedgerState) (ops : List LedgerOp) : LedgerState :=
  ops.foldl applyOp s

/-- A fresh store: every account at its opening balance, no transactions. -/
def initState (opening : Nat → ℚ) : LedgerState :=
  { balances := opening, transactions := [], schedule := [],
    nextTxId := 1, nextSchedId := 1 }

/-- Sum of the signed effects of a list of transactions on account `a`. -/
def txSum (ds : List Tx) (a : Nat) : ℚ :=
  (ds.map (fun t => signedEffect t a)).sum

/-! ### Batched legs -/

/-- One leg of a multi-leg submission, as handed to `add_transaction`. -/
structure Leg where
  date : Date
  amount : ℚ
  description : String
  type : TxType
  fromAccountId : Option Nat
  toAccountId : Option Nat
  category : String
  remark : String
deriving DecidableEq

def applyLeg (s : LedgerState) (l : Leg) : LedgerState :=
  add_transaction s l.date l.amount l.description l.type l.fromAccountId l.toAccountId
    l.category l.remark

def applyLegs (s : LedgerState) (legs : List Leg) : LedgerState :=
  legs.foldl applyLeg s

/-- The transaction row persisted for leg `l` under id `n`. -/
def legTx (n : Nat) (l : Leg) : Tx :=
  { id := n, date := l.date, amount := l.amount, description := l.description,
    type := l.type, fromAccountId := l.fromAccountId, toAccountId := l.toAccountId,
    category := l.category, remark := l.remark }

def legsTxs (nid : Nat) : List Leg → List Tx
  | [] => []
  | l :: ls => legTx nid l :: legsTxs (nid + 1) ls

/-! ### Sinking-fund goal dashboard math (Goals page) -/

/-- `months_left = (goal_date.year - today.year) * 12 + (goal_date.month - today.month)`. -/
def monthsLeft (goalDate today : Date) : Int :=
  ((goalDate.year : Int) - (today.year : Int)) * 12 +
    ((goalDate.month : Int) - (today.month : Int))

/-- The Goals page's `months_elapsed = max(0, min(term, (term - months_left) + 1))`. -/
def monthsElapsedCode (term : Nat) (goalDate today : Date) : Int :=
  max 0 (min (term : Int) ((term : Int) - monthsLeft goalDate today + 1))

/-- `monthly_contrib = goal_amount / term if term > 0 else 0`. -/
def monthlyContrib (goal : ℚ) (term : Nat) : ℚ :=
  if 0 < term then goal / (term : ℚ) else 0

/-- `expected_bal = months_elapsed * monthly_contrib` as the Goals page
computes it. -/
def expectedBalCode (goal : ℚ) (term : Nat) (goalDate today : Date) : ℚ :=
  (monthsElapsedCode term goalDate today : ℚ) * monthlyContrib goal term

inductive GoalStatus where
  | reached
  | behind (amt : ℚ)
  | onTrack
deriving DecidableEq

/-- The status message chain of the Goals card: goal reached when
`balance >= goal_amount and goal_amount > 0`; else "behind by
`expected_bal - balance`" when `balance < expected_bal`; else on track.
`expected_bal` stays `0.0` when the account has no goal date. -/
def goalStatus (goal balance : ℚ) (term : Nat) (goalDate : Option Date)
    (today : Date) : GoalStatus :=
  let expected : ℚ :=
    match goalDate with
    | none => 0
    | some g => expectedBalCode goal term g today
  if goal ≤ balance ∧ 0 < goal then .reached
  else if balance < expected then .behind (expected - balance)
  else .onTrack

/-- Modelled from the spec's words, for comparison:
`monthsElapsed = term − monthsRemaining(goalDate)`, clamped to `[0, term]`
(without the code's extra `+ 1`). -/
def monthsElapsedSpec (term : Nat) (goalDate today : Date) : Int :=
  max 0 (min (term : Int) ((term : Int) - monthsLeft goalDate today))

/-- Modelled from the spec's words, for comparison:
`expectedBalanceToday = monthsElapsed * (goalAmount / term)`. -/
def expectedBalSpec (goal : ℚ) (term : Nat) (goalDate today : Date) : ℚ :=
  (monthsElapsedSpec term goalDate today : ℚ) * (goal / (term : ℚ))

/-! ### Overview page wealth metrics -/

def sumBal (l : List Account) : ℚ :=
  (l.map (fun a => a.balance)).sum

/-- The headline "Total Net Worth" of the Overview page: active accounts
are filtered to `currency == 'SGD'`, per-type raw-balance totals are taken
(no exchange-rate multiplication, no `include_net_worth` filter), and
combined as `bank - cc - custodial + sf + rec`. -/
def overviewNetWorth (accounts : List Account) : ℚ :=
  let dfActive := accounts.filter (fun a => a.is_active)
  let dfCalc := dfActive.filter (fun a => decide (a.currency = "SGD"))
  let bankTot := sumBal (dfCalc.filter (fun a => decide (a.type = AccType.Bank)))
  let ccTot := sumBal (dfCalc.filter (fun a => decide (a.type = AccType.CreditCard)))
  let custodialTot := sumBal (dfCalc.filter (fun a => decide (a.type = AccType.Custodial)))
  let sfTot := sumBal (dfCalc.filter (fun a => decide (a.type = AccType.SinkingFund)))
  let recTot := sumBal (dfCalc.filter (fun a => decide (a.type = AccType.Receivable)))
  bankTot - ccTot - custodialTot + sfTot + recTot

/-- Sign of each account type in the net-worth formula
`Bank − CreditCard − Custodial + SinkingFund + Receivable` (types absent
from the formula contribute 0). -/
def nwWeight : AccType → ℚ
  | .Bank => 1
  | .CreditCard => -1
  | .Custodial => -1
  | .SinkingFund => 1
  | .Receivable => 1
  | .Loan => 0
  | .Investment => 0

/-- Modelled from the spec's words, for comparison: the headline net worth
as `Σ balance * exchangeRate` over accounts with `includeInNetWorth` and
`isActive`, signed per the formula, with no currency restriction. -/
def netWorthHeadlineSpec (accounts : List Account) : ℚ :=
  ((accounts.filter (fun a => a.include_net_worth && a.is_active)).map
    (fun a => nwWeight a.type * (a.balance * a.manual_exchange_rate))).sum

/-! ### Entry form submission (batched legs) -/

/-- The radio options of the Entry page. -/
inductive EntryType where
  | Expense
  | Income
  | Transfer
  | CustodialExpense
  | CustodialIn
  | IncreaseLoan
  | SinkingFundExpense
deriving DecidableEq

/-- The state of the Entry form at submit time.  Selectboxes yield an
account id or `none`; `number_input` with `value=None` yields an optional
amount.  Account names in the Python remark strings are abstracted away
(only the batch tag in the remark is semantically relevant). -/
structure EntryForm where
  t_type : EntryType
  is_split : Bool
  tx_date : Date
  acc1 : Option Nat
  acc2 : Option Nat
  f_acc : Option Nat
  t_acc : Option Nat
  cust_acc : Option Nat
  bank_acc : Option Nat
  sf_acc : Option Nat
  amt : Option ℚ
  amt1 : Option ℚ
  amt2 : Option ℚ
  amt_bank : Option ℚ
  category : Option String
  desc : String
  remark : String
deriving DecidableEq

/-- Python `not desc.strip()`. -/
def isBlankStr (s : String) : Bool :=
  s.toList.all (fun c => (c == ' ') || (c == '\t') || (c == '\n') || (c == '\r'))

/-- Python truthiness failure of an optional amount (`not amt1`). -/
def falsyAmt : Option ℚ → Bool
  | none => true
  | some q => decide (q = 0)

/-- Python `amt is None or amt <= 0`. -/
def invalidAmt : Option ℚ → Bool
  | none => true
  | some q => decide (q ≤ 0)

/-- The validation chain of the Entry form submit handler (the `if/elif`
ladder preceding any persistence).  Returns the error shown, or `none`. -/
def validateEntry (form : EntryForm) : Option String :=
  if form.t_type = .Expense ∧ form.is_split = true ∧ (form.acc1 = none ∨ form.acc2 = none) then
    some "select both source accounts"
  else if form.t_type = .Expense ∧ form.is_split = false ∧ form.f_acc = none then
    some "select a paid-from account"
  else if (form.t_type = .CustodialExpense ∨ form.t_type = .CustodialIn) ∧
      (form.cust_acc = none ∨ form.bank_acc = none) then
    some "select both the custodial and bank accounts"
  else if form.t_type = .SinkingFundExpense ∧ (form.sf_acc = none ∨ form.bank_acc = none) then
    some "select both the sinking fund and bank account"
  else if form.t_type = .Income ∧ form.t_acc = none then
    some "select a deposit-to account"
  else if form.t_type = .Transfer ∧ (form.f_acc = none ∨ form.t_acc = none) then
    some "select both from and to accounts"
  else if form.t_type = .IncreaseLoan ∧ form.t_acc = none then
    some "select a loan account"
  else if form.t_type = .IncreaseLoan ∧ isBlankStr form.desc = true then
    some "description is mandatory when increasing a loan"
  else if form.t_type = .Expense ∧ form.is_split = true ∧
      (falsyAmt form.amt1 = true ∨ falsyAmt form.amt2 = true) then
    some "enter both amounts for the split"
  else if form.is_split = false ∧ invalidAmt form.amt = true then
    some "enter a valid amount"
  else
    none

/-- The Entry form submit handler: run the validation ladder; on failure
nothing is persisted; on success route every leg (tagged with the shared
batch id where the code does so) through `process_transaction`. -/
def submitEntry (today : Date) (s : LedgerState) (form : EntryForm)
    (batchTag : String) : LedgerState × Option String :=
  match validateEntry form with
  | some e => (s, some e)
  | none =>
    let finalCat : String :=
      match form.category with
      | none => "Others"
      | some c => if c = "" then "Others" else c
    match form.t_type with
    | .Expense =>
      if form.is_split then
        let a1 := form.amt1.getD 0
        let a2 := form.amt2.getD 0
        let s1 := if 0 < a1 then
            (process_transaction today s form.tx_date a1 (form.desc ++ " (Split 1)")
              TxType.Expense form.acc1 none finalCat (form.remark ++ batchTag)).1
          else s
        let s2 := if 0 < a2 then
            (process_transaction today s1 form.tx_date a2 (form.desc ++ " (Split 2)")
              TxType.Expense form.acc2 none finalCat (form.remark ++ batchTag)).1
          else s1
        (s2, none)
      else
        ((process_transaction today s form.tx_date (form.amt.getD 0) form.desc
            TxType.Expense form.f_acc form.t_acc finalCat form.remark).1, none)
    | .CustodialExpense =>
      let ab := form.amt_bank.getD 0
      let av := form.amt.getD 0
      let s1 := if 0 < ab then
          (process_transaction today s form.tx_date ab (form.desc ++ " (Actual Payment)")
            TxType.Expense form.bank_acc none finalCat ("Real payment" ++ batchTag)).1
        else s
      let s2 := if 0 < av then
          (process_transaction today s1 form.tx_date av (form.desc ++ " (Virtual Deduction)")
            TxType.VirtualExpense form.cust_acc none finalCat ("Virtual deduction" ++ batchTag)).1
        else s1
      (s2, none)
    | .SinkingFundExpense =>
      let av := form.amt.getD 0
      let s1 :=
        (process_transaction today s form.tx_date av (form.desc ++ " (Actual Payment)")
          TxType.Expense form.bank_acc none finalCat ("Paid for goal" ++ batchTag)).1
      let s2 :=
        (process_transaction today s1 form.tx_date av (form.desc ++ " (Virtual Envelope Deduction)")
          TxType.VirtualExpense form.sf_acc none finalCat ("Deducted from envelope" ++ batchTag)).1
      (s2, none)
    | .CustodialIn =>
      let av := form.amt.getD 0
      let s1 :=
        (process_transaction today s form.tx_date av (form.desc ++ " (Custodial)")
          TxType.Income none form.bank_acc finalCat ("Real deposit" ++ batchTag)).1
      let s2 :=
        (process_transaction today s1 form.tx_date av (form.desc ++ " (Virtual)")
          TxType.VirtualFunding none form.cust_acc finalCat ("Virtual addition" ++ batchTag)).1
      (s2, none)
    | .IncreaseLoan =>
      ((process_transaction today s form.tx_date (form.amt.getD 0) form.desc
          TxType.IncreaseLoan none form.t_acc finalCat form.remark).1, none)
    | .Income =>
      ((process_transaction today s form.tx_date (form.amt.getD 0) form.desc
          TxType.Income form.f_acc form.t_acc finalCat form.remark).1, none)
    | .Transfer =>
      ((process_transaction today s form.tx_date (form.amt.getD 0) form.desc
          TxType.Transfer form.f_acc form.t_acc finalCat form.remark).1, none)

/-! ## Basic lemmas about balance updates and effects -/

lemma update_balance_apply (bal : Nat → ℚ) (t : Option Nat) (v : ℚ) (a : Nat) :
    update_balance bal t v a = bal a + effOn t a v := by
  cases t with
  | none => simp [update_balance, effOn]
  | some i =>
    by_cases hi : i = 0
    · simp [update_balance, effOn, hi]
    · by_cases ha : a = i
      · subst ha; simp [update_balance, effOn, hi]
      · simp [update_balance, effOn, hi, ha]

lemma effOn_neg (t : Option Nat) (a : Nat) (v : ℚ) :
    effOn t a (-v) = -(effOn t a v) := by
  cases t with
  | none => simp [effOn]
  | some i => by_cases hi : i = 0 <;> by_cases ha : a = i <;> simp [effOn, hi, ha]

lemma effOn_not_target (t : Option Nat) (a : Nat) (v : ℚ) (h : t ≠ some a) :
    effOn t a v = 0 := by
  cases t with
  | none => simp [effOn]
  | some i =>
    have ha : a ≠ i := fun hc => h (by rw [hc])
    by_cases hi : i = 0 <;> simp [effOn, hi, ha]

lemma applyTxEffect_apply (bal : Nat → ℚ) (ty : TxType) (fa ta : Option Nat)
    (v : ℚ) (a : Nat) :
    applyTxEffect bal ty fa ta v a = bal a + txEff ty fa ta v a := by
  cases ty <;> simp [applyTxEffect, txEff, update_balance_apply] <;> ring

lemma reverseTxEffect_apply (bal : Nat → ℚ) (ty : TxType) (fa ta : Option Nat)
    (v : ℚ) (a : Nat) :
    reverseTxEffect bal ty fa ta v a = bal a - txEff ty fa ta v a := by
  cases ty <;> simp [reverseTxEffect, txEff, update_balance_apply, effOn_neg] <;> ring

/-! ## Lemmas about `add_transaction` and the deletion fold -/

lemma add_transaction_balances (s : LedgerState) (d : Date) (amount : ℚ)
    (description : String) (ty : TxType) (fa ta : Option Nat) (category remark : String)
    (a : Nat) :
    (add_transaction s d amount description ty fa ta category remark).balances a =
      s.balances a + txEff ty fa ta amount a := by
  simp [add_transaction, applyTxEffect_apply]

lemma add_transaction_transactions (s : LedgerState) (d : Date) (amount : ℚ)
    (description : String) (ty : TxType) (fa ta : Option Nat) (category remark : String) :
    (add_transaction s d amount description ty fa ta category remark).transactions =
      s.transactions ++
        [{ id := s.nextTxId, date := d, amount := amount, description := description,
           type := ty, fromAccountId := fa, toAccountId := ta,
           category := category, remark := remark }] := rfl

lemma add_transaction_nextTxId (s : LedgerState) (d : Date) (amount : ℚ)
    (description : String) (ty : TxType) (fa ta : Option Nat) (category remark : String) :
    (add_transaction s d amount description ty fa ta category remark).nextTxId =
      s.nextTxId + 1 := rfl

lemma add_transaction_schedule (s : LedgerState) (d : Date) (amount : ℚ)
    (description : String) (ty : TxType) (fa ta : Option Nat) (category remark : String) :
    (add_transaction s d amount description ty fa ta category remark).schedule =
      s.schedule := rfl

lemma txSum_nil (a : Nat) : txSum [] a = 0 := rfl

lemma txSum_cons (d : Tx) (ds : List Tx) (a : Nat) :
    txSum (d :: ds) a = signedEffect d a + txSum ds a := by
  simp [txSum]

lemma txSum_append (l1 l2 : List Tx) (a : Nat) :
    txSum (l1 ++ l2) a = txSum l1 a + txSum l2 a := by
  simp [txSum]

lemma reverseOne_balances (s : LedgerState) (t : Tx) (a : Nat) :
    (reverseOne s t).balances a = s.balances a - signedEffect t a := by
  simp [reverseOne, reverseTxEffect_apply, signedEffect]

lemma foldl_reverseOne_balances (ds : List Tx) (s : LedgerState) (a : Nat) :
    ((ds.foldl reverseOne s).balances a) = s.balances a - txSum ds a := by
  induction ds generalizing s with
  | nil => simp [txSum]
  | cons d ds ih =>
    simp only [List.foldl_cons]
    rw [ih, reverseOne_balances, txSum_cons]
    ring

lemma foldl_reverseOne_transactions (ds : List Tx) (s : LedgerState) :
    (ds.foldl reverseOne s).transactions =
      s.transactions.filter (fun x => decide (x.id ∉ ds.map (fun t => t.id))) := by
  induction ds generalizing s with
  | nil => simp
  | cons d ds ih =>
    simp only [List.foldl_cons]
    rw [ih]
    show (s.transactions.filter (fun x => decide (x.id ≠ d.id))).filter
        (fun x => decide (x.id ∉ ds.map (fun t => t.id))) = _
    rw [List.filter_filter]
    apply List.filter_congr
    intro x _
    by_cases h1 : x.id = d.id <;> by_cases h2 : x.id ∈ ds.map (fun t => t.id) <;>
      simp [h1, h2]

lemma foldl_reverseOne_schedule (ds : List Tx) (s : LedgerState) :
    (ds.foldl reverseOne s).schedule = s.schedule := by
  induction ds generalizing s with
  | nil => rfl
  | cons d ds ih => simp only [List.foldl_cons]; rw [ih]; rfl

lemma foldl_reverseOne_nextTxId (ds : List Tx) (s : LedgerState) :
    (ds.foldl reverseOne s).nextTxId = s.nextTxId := by
  induction ds generalizing s with
  | nil => rfl
  | cons d ds ih => simp only [List.foldl_cons]; rw [ih]; rfl

lemma foldl_reverseOne_nextSchedId (ds : List Tx) (s : LedgerState) :
    (ds.foldl reverseOne s).nextSchedId = s.nextSchedId := by
  induction ds generalizing s with
  | nil => rfl
  | cons d ds ih => simp only [List.foldl_cons]; rw [ih]; rfl

lemma txSum_filter_split (p : Tx → Bool) (l : List Tx) (a : Nat) :
    txSum l a = txSum (l.filter p) a + txSum (l.filter (fun x => !(p x))) a := by
  induction l with
  | nil => simp [txSum]
  | cons d ds ih =>
    by_cases h : p d <;> simp [List.filter_cons, h, txSum_cons] <;> rw [ih] <;> ring

lemma nodup_id_inj {l : List Tx} (h : (l.map (fun t => t.id)).Nodup)
    {x y : Tx} (hx : x ∈ l) (hy : y ∈ l) (hxy : x.id = y.id) : x = y :=
  List.inj_on_of_nodup_map h hx hy hxy

lemma filter_id_singleton {l : List Tx} (h : (l.map (fun t => t.id)).Nodup)
    {tx : Tx} (hm : tx ∈ l) :
    l.filter (fun x => decide (x.id = tx.id)) = [tx] := by
  induction l with
  | nil => cases hm
  | cons b bs ih =>
    rw [List.map_cons] at h
    obtain ⟨hhead, hnd⟩ := List.nodup_cons.mp h
    rcases List.mem_cons.mp hm with hb | hb
    · subst hb
      have hall : bs.filter (fun x => decide (x.id = tx.id)) = [] := by
        apply List.filter_eq_nil_iff.mpr
        intro x hx hcx
        exact hhead (by
          have hxid : x.id = tx.id := by simpa using hcx
          rw [← hxid]
          exact List.mem_map_of_mem (fun t => t.id) hx)
      simp [List.filter_cons, hall]
    · have hne : b.id ≠ tx.id := by
        intro hc
        exact hhead (by rw [hc]; exact List.mem_map_of_mem (fun t => t.id) hb)
      simp [List.filter_cons, hne, ih hnd hb]

lemma find?_id_mem {l : List Tx} {txId : Nat} {tx : Tx}
    (h : l.find? (fun t => decide (t.id = txId)) = some tx) :
    tx ∈ l ∧ tx.id = txId := by
  refine ⟨List.mem_of_find?_eq_some h, ?_⟩
  have := List.find?_some h
  simpa using this

/-! ## The global balance invariant (C1 machinery) -/

/-- Well-formedness of the transaction store: auto-increment ids are
pairwise distinct and below the next id to be assigned. -/
def WFtx (s : LedgerState) : Prop :=
  (s.transactions.map (fun t => t.id)).Nodup ∧ ∀ t ∈ s.transactions, t.id < s.nextTxId

/-- The invariant: every balance is the opening balance plus the summed
signed effects of the persisted transactions. -/
def InvL (opening : Nat → ℚ) (s : LedgerState) : Prop :=
  WFtx s ∧ ∀ a, s.balances a = opening a + txSum s.transactions a

lemma WFtx_add (s : LedgerState) (hwf : WFtx s) (d : Date) (amount : ℚ)
    (description : String) (ty : TxType) (fa ta : Option Nat) (category remark : String) :
    WFtx (add_transaction s d amount description ty fa ta category remark) := by
  obtain ⟨hnd, hbd⟩ := hwf
  constructor
  · rw [add_transaction_transactions, List.map_append, List.nodup_append]
    refine ⟨hnd, by simp, ?_⟩
    intro x hx
    simp only [List.map_cons, List.map_nil, List.mem_singleton]
    obtain ⟨t, ht, hti⟩ := List.mem_map.mp hx
    intro hc
    have := hbd t ht
    simp only [hc] at hti
    omega
  · intro t ht
    rw [add_transaction_transactions] at ht
    rw [add_transaction_nextTxId]
    rcases List.mem_append.mp ht with h1 | h1
    · have := hbd t h1
      omega
    · have h2 : t.id = s.nextTxId := by
        rw [List.mem_singleton.mp h1]
      omega

lemma mem_removal_iff {l : List Tx} (hnd : (l.map (fun t => t.id)).Nodup) (q : Tx → Bool) :
    ∀ x ∈ l, (decide (x.id ∉ (l.filter q).map (fun t => t.id)) : Bool) = !(q x) := by
  intro x hx
  by_cases hq : q x
  · have hm : x ∈ l.filter q := List.mem_filter.mpr ⟨hx, hq⟩
    have hmm : x.id ∈ (l.filter q).map (fun t => t.id) :=
      List.mem_map_of_mem (fun t => t.id) hm
    simp [hmm, hq]
  · have hnotin : x.id ∉ (l.filter q).map (fun t => t.id) := by
      intro hin
      obtain ⟨y, hy, hyid⟩ := List.mem_map.mp hin
      have hyl := (List.mem_filter.mp hy).1
      have hqy := (List.mem_filter.mp hy).2
      have hyx : y = x := nodup_id_inj hnd hyl hx hyid
      rw [hyx] at hqy
      exact hq hqy
    simp [hnotin, hq]

lemma txSum_after_removal {l : List Tx} (hnd : (l.map (fun t => t.id)).Nodup)
    (q : Tx → Bool) (a : Nat) :
    txSum (l.filter (fun x => decide (x.id ∉ (l.filter q).map (fun t => t.id)))) a
      = txSum l a - txSum (l.filter q) a := by
  rw [List.filter_congr (mem_removal_iff hnd q)]
  have := txSum_filter_split q l a
  linarith

lemma WFtx_filter (s : LedgerState) (hwf : WFtx s) (p : Tx → Bool) :
    WFtx { s with transactions := s.transactions.filter p } := by
  obtain ⟨hnd, hbd⟩ := hwf
  constructor
  · exact hnd.sublist ((s.transactions.filter_sublist).map (fun t => t.id))
  · intro t ht
    exact hbd t (List.mem_of_mem_filter ht)

/-- Reduction of `delete_transaction` in the not-found case. -/
lemma delete_not_found {s : LedgerState} {txId : Nat}
    (hf : s.transactions.find? (fun t => decide (t.id = txId)) = none) :
    delete_transaction s txId = (s, false) := by
  simp only [delete_transaction, hf]

/-- Reduction of `delete_transaction` when the transaction is found and its
remark carries no batch tag. -/
lemma delete_found_none {s : LedgerState} {txId : Nat} {tx : Tx}
    (hf : s.transactions.find? (fun t => decide (t.id = txId)) = some tx)
    (hb : extractBatch tx.remark.toList = none) :
    (delete_transaction s txId).1 = [tx].foldl reverseOne s := by
  simp only [delete_transaction, hf, hb]

/-- Reduction of `delete_transaction` when the transaction is found and its
remark carries batch tag `b`. -/
lemma delete_found_some {s : LedgerState} {txId : Nat} {tx : Tx} {b : List Char}
    (hf : s.transactions.find? (fun t => decide (t.id = txId)) = some tx)
    (hb : extractBatch tx.remark.toList = some b) :
    (delete_transaction s txId).1 =
      (s.transactions.filter (fun t => ilikeContains t.remark.toList b)).foldl reverseOne s := by
  simp only [delete_transaction, hf, hb]

/-- Reversing any filter-shaped subset of a well-formed store preserves the
balance invariant. -/
lemma foldl_reverse_filter_inv (opening : Nat → ℚ) (s : LedgerState)
    (hwf : WFtx s) (hbal : ∀ a, s.balances a = opening a + txSum s.transactions a)
    (q : Tx → Bool) :
    InvL opening ((s.transactions.filter q).foldl reverseOne s) := by
  refine ⟨⟨?_, ?_⟩, ?_⟩
  · rw [foldl_reverseOne_transactions]
    exact List.Nodup.sublist
      (List.Sublist.map (fun t : Tx => t.id) (List.filter_sublist s.transactions)) hwf.1
  · intro t ht
    rw [foldl_reverseOne_nextTxId]
    rw [foldl_reverseOne_transactions] at ht
    exact hwf.2 t (List.mem_of_mem_filter ht)
  · intro a
    rw [foldl_reverseOne_balances, foldl_reverseOne_transactions,
      txSum_after_removal hwf.1 q a, hbal a]
    ring

lemma delete_transaction_inv (opening : Nat → ℚ) (s : LedgerState)
    (h : InvL opening s) (txId : Nat) :
    InvL opening (delete_transaction s txId).1 := by
  obtain ⟨hwf, hbal⟩ := h
  rcases hf : s.transactions.find? (fun t => decide (t.id = txId)) with _ | tx
  · rw [show (delete_transaction s txId).1 = s from by rw [delete_not_found hf]]
    exact ⟨hwf, hbal⟩
  · obtain ⟨hmem, _⟩ := find?_id_mem hf
    rcases hb : extractBatch tx.remark.toList with _ | b
    · rw [delete_found_none hf hb]
      have hsingle : [tx] = s.transactions.filter (fun x => decide (x.id = tx.id)) :=
        (filter_id_singleton hwf.1 hmem).symm
      rw [hsingle]
      exact foldl_reverse_filter_inv opening s ⟨hwf.1, hwf.2⟩ hbal _
    · rw [delete_found_some hf hb]
      exact foldl_reverse_filter_inv opening s ⟨hwf.1, hwf.2⟩ hbal _

lemma add_transaction_inv (opening : Nat → ℚ) (s : LedgerState)
    (h : InvL opening s) (d : Date) (amount : ℚ) (description : String)
    (ty : TxType) (fa ta : Option Nat) (category remark : String) :
    InvL opening (add_transaction s d amount description ty fa ta category remark) := by
  refine ⟨WFtx_add s h.1 d amount description ty fa ta category remark, ?_⟩
  intro a
  rw [add_transaction_balances, h.2 a]
  show _ = opening a + txSum (s.transactions ++ [_]) a
  rw [txSum_append]
  simp only [txSum_cons, txSum_nil, signedEffect]
  ring

lemma runOps_inv (opening : Nat → ℚ) (ops : List LedgerOp) (s : LedgerState)
    (h : InvL opening s) : InvL opening (runOps s ops) := by
  induction ops generalizing s with
  | nil => exact h
  | cons op ops ih =>
    refine ih (applyOp s op) ?_
    cases op with
    | add d amount description ty fa ta category remark =>
      exact add_transaction_inv opening s h d amount description ty fa ta category remark
    | reverse txId => exact delete_transaction_inv opening s h txId

lemma initState_inv (opening : Nat → ℚ) : InvL opening (initState opening) := by
  refine ⟨⟨by simp [initState], by simp [initState]⟩, ?_⟩
  intro a
  simp [initState, txSum]

lemma effOn_self {i : Nat} (hi : i ≠ 0) (v : ℚ) : effOn (some i) i v = v := by
  simp [effOn, hi]

lemma effOn_ne {i a : Nat} (ha : a ≠ i) (v : ℚ) : effOn (some i) a v = 0 := by
  simp [effOn, ha]

/-- `find?` by id skips a prefix whose ids all differ from the target. -/
lemma find?_id_in_suffix (l1 l2 : List Tx) (n : Nat) (h : ∀ t ∈ l1, t.id ≠ n) :
    (l1 ++ l2).find? (fun t => decide (t.id = n)) = l2.find? (fun t => decide (t.id = n)) := by
  induction l1 with
  | nil => rfl
  | cons a as ih =>
    rw [List.cons_append, List.find?_cons_of_neg]
    · exact ih (fun t ht => h t (List.mem_cons_of_mem a ht))
    · simp [h a (List.mem_cons_self a as)]

/-! ## Claim C1 -/

/-- Claim C1: starting from a fresh store with the given opening balances,
after every sequence of apply (`add_transaction`) and reverse
(`delete_transaction`) operations, every account's stored balance equals its
opening balance plus the sum of the signed effects of all currently
persisted transactions (transactions not referencing the account contribute
a zero effect), exactly. -/
theorem balance_invariant (opening : Nat → ℚ) (ops : List LedgerOp) (a : Nat) :
    (runOps (initState opening) ops).balances a =
      opening a + txSum (runOps (initState opening) ops).transactions a :=
  (runOps_inv opening ops (initState opening) (initState_inv opening)).2 a

/-! ## Claim C2 -/

/-- Claim C2: for a positive amount, `add_transaction` changes exactly the
balances prescribed by the effect table and no others: Expense and Virtual
Expense subtract from the from-account; Income and Virtual Funding add to
the to-account; Increase Loan subtracts from the to-account; Transfer
subtracts from the from-account and adds to the to-account. -/
theorem apply_effect_table (s : LedgerState) (d : Date) (amount : ℚ)
    (hpos : 0 < amount) (description category remark : String)
    (f t : Nat) (hf : 0 < f) (ht : 0 < t) :
    ((add_transaction s d amount description .Expense (some f) none category remark).balances f
        = s.balances f - amount
      ∧ ∀ a, a ≠ f → (add_transaction s d amount description .Expense
          (some f) none category remark).balances a = s.balances a)
    ∧ ((add_transaction s d amount description .VirtualExpense (some f) none category
          remark).balances f = s.balances f - amount
      ∧ ∀ a, a ≠ f → (add_transaction s d amount description .VirtualExpense
          (some f) none category remark).balances a = s.balances a)
    ∧ ((add_transaction s d amount description .Income none (some t) category
          remark).balances t = s.balances t + amount
      ∧ ∀ a, a ≠ t → (add_transaction s d amount description .Income
          none (some t) category remark).balances a = s.balances a)
    ∧ ((add_transaction s d amount description .VirtualFunding none (some t) category
          remark).balances t = s.balances t + amount
      ∧ ∀ a, a ≠ t → (add_transaction s d amount description .VirtualFunding
          none (some t) category remark).balances a = s.balances a)
    ∧ ((add_transaction s d amount description .IncreaseLoan none (some t) category
          remark).balances t = s.balances t - amount
      ∧ ∀ a, a ≠ t → (add_transaction s d amount description .IncreaseLoan
          none (some t) category remark).balances a = s.balances a)
    ∧ (f ≠ t →
      (add_transaction s d amount description .Transfer (some f) (some t) category
          remark).balances f = s.balances f - amount
      ∧ (add_transaction s d amount description .Transfer (some f) (some t) category
          remark).balances t = s.balances t + amount
      ∧ ∀ a, a ≠ f → a ≠ t → (add_transaction s d amount description .Transfer
          (some f) (some t) category remark).balances a = s.balances a) := by
  have hf0 : f ≠ 0 := Nat.pos_iff_ne_zero.mp hf
  have ht0 : t ≠ 0 := Nat.pos_iff_ne_zero.mp ht
  refine ⟨⟨?_, ?_⟩, ⟨?_, ?_⟩, ⟨?_, ?_⟩, ⟨?_, ?_⟩, ⟨?_, ?_⟩, ?_⟩
  · rw [add_transaction_balances]; simp [txEff, effOn_self hf0]; ring
  · intro a ha; rw [add_transaction_balances]; simp [txEff, effOn_ne ha]
  · rw [add_transaction_balances]; simp [txEff, effOn_self hf0]; ring
  · intro a ha; rw [add_transaction_balances]; simp [txEff, effOn_ne ha]
  · rw [add_transaction_balances]; simp [txEff, effOn_self ht0]
  · intro a ha; rw [add_transaction_balances]; simp [txEff, effOn_ne ha]
  · rw [add_transaction_balances]; simp [txEff, effOn_self ht0]
  · intro a ha; rw [add_transaction_balances]; simp [txEff, effOn_ne ha]
  · rw [add_transaction_balances]; simp [txEff, effOn_self ht0]; ring
  · intro a ha; rw [add_transaction_balances]; simp [txEff, effOn_ne ha]
  · intro hft
    refine ⟨?_, ?_, ?_⟩
    · rw [add_transaction_balances]
      simp [txEff, effOn_self hf0, effOn_ne hft]
      ring
    · rw [add_transaction_balances]
      simp [txEff, effOn_self ht0, effOn_ne (Ne.symm hft)]
    · intro a haf hat
      rw [add_transaction_balances]
      simp [txEff, effOn_ne haf, effOn_ne hat]

/-- Concrete store for the Scenario A witness: account 1 holds 100,
account 2 holds 50. -/
def c2State : LedgerState :=
  { balances := fun a => if a = 1 then 100 else if a = 2 then 50 else 0,
    transactions := [], schedule := [], nextTxId := 1, nextSchedId := 1 }

def c2Date : Date := ⟨2024, 1, 15⟩

/-- Witness for C2 (Scenario A): Transfer(30, account 1 → account 2) from
balances (100, 50) yields (70, 80). -/
theorem apply_effect_table_witness :
    (add_transaction c2State c2Date 30 "move" TxType.Transfer (some 1) (some 2)
      "Others" "").balances 1 = 70
    ∧ (add_transaction c2State c2Date 30 "move" TxType.Transfer (some 1) (some 2)
      "Others" "").balances 2 = 80 := by
  have h := (apply_effect_table c2State c2Date 30 (by norm_num) "move" "Others" ""
    1 2 (by norm_num) (by norm_num)).2.2.2.2.2 (by norm_num)
  refine ⟨?_, ?_⟩
  · rw [h.1]; norm_num [c2State]
  · rw [h.2.1]; norm_num [c2State]

/-! ## Claim C3 -/

/-- Claim C3: for every transaction type in the effect table and every
well-formed account state, applying a transaction (whose notes carry no
batch tag) and then reversing it by its id restores every account's balance
to its pre-apply value and removes exactly the one persisted row. -/
theorem apply_reverse_round_trip (s : LedgerState)
    (hwf : ∀ t ∈ s.transactions, t.id < s.nextTxId)
    (d : Date) (amount : ℚ) (description : String) (ty : TxType)
    (fa ta : Option Nat) (category remark : String)
    (hnb : extractBatch remark.toList = none) :
    (∀ a, (delete_transaction
        (add_transaction s d amount description ty fa ta category remark)
        s.nextTxId).1.balances a = s.balances a)
    ∧ (delete_transaction
        (add_transaction s d amount description ty fa ta category remark)
        s.nextTxId).1.transactions = s.transactions := by
  set newTx : Tx :=
    { id := s.nextTxId, date := d, amount := amount, description := description,
      type := ty, fromAccountId := fa, toAccountId := ta,
      category := category, remark := remark } with hnew
  set s1 := add_transaction s d amount description ty fa ta category remark with hs1
  have htx : s1.transactions = s.transactions ++ [newTx] := by
    rw [hs1, add_transaction_transactions]
  have hfind : s1.transactions.find? (fun x => decide (x.id = s.nextTxId)) = some newTx := by
    rw [htx, find?_id_in_suffix _ _ _ (fun x hx => Nat.ne_of_lt (hwf x hx))]
    rw [List.find?_cons_of_pos]
    simp [hnew]
  have hb : extractBatch newTx.remark.toList = none := hnb
  have hred : (delete_transaction s1 s.nextTxId).1 = [newTx].foldl reverseOne s1 :=
    delete_found_none hfind hb
  constructor
  · intro a
    rw [hred, foldl_reverseOne_balances]
    rw [hs1, add_transaction_balances]
    have : txSum [newTx] a = txEff ty fa ta amount a := by
      simp [txSum_cons, txSum_nil, signedEffect, hnew]
    rw [this]
    ring
  · rw [hred, foldl_reverseOne_transactions, htx, List.filter_append]
    have h1 : s.transactions.filter
        (fun x => decide (x.id ∉ [newTx].map (fun t => t.id))) = s.transactions := by
      apply List.filter_eq_self.mpr
      intro x hx
      have := Nat.ne_of_lt (hwf x hx)
      simp [hnew, this]
    have h2 : ([newTx].filter
        (fun x => decide (x.id ∉ [newTx].map (fun t => t.id)))) = [] := by
      simp
    rw [h1, h2, List.append_nil]

/-- Concrete store for the Scenario B witness: account 1 holds 70. -/
def c3State : LedgerState :=
  { balances := fun a => if a = 1 then 70 else 0,
    transactions := [], schedule := [], nextTxId := 1, nextSchedId := 1 }

def c3Date : Date := ⟨2024, 2, 1⟩

/-- Witness for C3 (Scenario B): Expense(20, from account 1 at 70) then
Reverse restores account 1 to 70 and leaves no transactions. -/
theorem apply_reverse_round_trip_witness :
    (delete_transaction (add_transaction c3State c3Date 20 "buy" TxType.Expense
      (some 1) none "Others" "") 1).1.balances 1 = 70
    ∧ (delete_transaction (add_transaction c3State c3Date 20 "buy" TxType.Expense
      (some 1) none "Others" "") 1).1.transactions = [] := by
  have h := apply_reverse_round_trip c3State (by simp [c3State]) c3Date 20 "buy"
    TxType.Expense (some 1) none "Others" "" (by decide)
  refine ⟨?_, ?_⟩
  · have h1 := h.1 1
    have hb : c3State.balances 1 = 70 := by norm_num [c3State]
    rw [hb] at h1
    exact h1
  · exact h.2

/-! ## Claim C4 -/

/-- Claim C4: when the Entry form's validation ladder rejects the
submission (any leg's required field missing or invalid), the submit
handler persists nothing: the returned state is the input state — zero
legs persisted, zero balances changed, zero schedule rows added. -/
theorem batch_validation_atomic (today : Date) (s : LedgerState) (form : EntryForm)
    (batchTag : String) (e : String) (hval : validateEntry form = some e) :
    submitEntry today s form batchTag = (s, some e) := by
  simp only [submitEntry, hval]

/-- Concrete failing form for the C4 witness: a non-split Expense with no
paid-from account selected. -/
def c4Form : EntryForm :=
  { t_type := .Expense, is_split := false, tx_date := ⟨2024, 1, 1⟩,
    acc1 := none, acc2 := none, f_acc := none, t_acc := none,
    cust_acc := none, bank_acc := none, sf_acc := none,
    amt := some 5, amt1 := none, amt2 := none, amt_bank := none,
    category := none, desc := "x", remark := "" }

def c4State : LedgerState :=
  { balances := fun a => if a = 1 then 100 else 0,
    transactions := [], schedule := [], nextTxId := 1, nextSchedId := 1 }

/-- Witness for C4: the failing submission returns the untouched state. -/
theorem batch_validation_atomic_witness :
    submitEntry ⟨2024, 1, 2⟩ c4State c4Form "" =
      (c4State, some "select a paid-from account") :=
  batch_validation_atomic ⟨2024, 1, 2⟩ c4State c4Form ""
    "select a paid-from account" (by decide)

/-! ## Claim C5 -/

lemma applyLegs_transactions (legs : List Leg) (s : LedgerState) :
    (applyLegs s legs).transactions = s.transactions ++ legsTxs s.nextTxId legs := by
  induction legs generalizing s with
  | nil => simp [applyLegs, legsTxs]
  | cons l ls ih =>
    show (applyLegs (applyLeg s l) ls).transactions = _
    rw [ih]
    have h1 : (applyLeg s l).transactions = s.transactions ++ [legTx s.nextTxId l] := rfl
    have h2 : (applyLeg s l).nextTxId = s.nextTxId + 1 := rfl
    rw [h1, h2, List.append_assoc]
    rfl

lemma applyLegs_balances (legs : List Leg) (s : LedgerState) (a : Nat) :
    (applyLegs s legs).balances a = s.balances a + txSum (legsTxs s.nextTxId legs) a := by
  induction legs generalizing s with
  | nil => simp [applyLegs, legsTxs, txSum]
  | cons l ls ih =>
    show (applyLegs (applyLeg s l) ls).balances a = _
    rw [ih]
    have h1 : (applyLeg s l).balances a =
        s.balances a + txEff l.type l.fromAccountId l.toAccountId l.amount a :=
      add_transaction_balances s l.date l.amount l.description l.type l.fromAccountId
        l.toAccountId l.category l.remark a
    have h2 : (applyLeg s l).nextTxId = s.nextTxId + 1 := rfl
    rw [h1, h2]
    have h3 : txSum (legsTxs s.nextTxId (l :: ls)) a =
        txEff l.type l.fromAccountId l.toAccountId l.amount a +
          txSum (legsTxs (s.nextTxId + 1) ls) a := by
      show txSum (legTx s.nextTxId l :: legsTxs (s.nextTxId + 1) ls) a = _
      rw [txSum_cons]
      rfl
    rw [h3]
    ring

lemma legsTxs_mem (legs : List Leg) : ∀ (nid : Nat) (t : Tx), t ∈ legsTxs nid legs →
    ∃ l ∈ legs, ∃ m, nid ≤ m ∧ t = legTx m l := by
  induction legs with
  | nil => intro nid t ht; cases ht
  | cons l ls ih =>
    intro nid t ht
    rcases List.mem_cons.mp ht with h1 | h1
    · exact ⟨l, List.mem_cons_self l ls, nid, Nat.le_refl nid, h1⟩
    · obtain ⟨l2, hl2, m, hm, hteq⟩ := ih (nid + 1) t h1
      exact ⟨l2, List.mem_cons_of_mem l hl2, m, by omega, hteq⟩

lemma legsTxs_find (legs : List Leg) : ∀ (nid i : Nat) (hi : i < legs.length),
    (legsTxs nid legs).find? (fun x => decide (x.id = nid + i)) =
      some (legTx (nid + i) (legs.get ⟨i, hi⟩)) := by
  induction legs with
  | nil => intro nid i hi; exact absurd hi (by simp)
  | cons l ls ih =>
    intro nid i hi
    cases i with
    | zero =>
      show (legTx nid l :: legsTxs (nid + 1) ls).find? _ = _
      rw [List.find?_cons_of_pos]
      · simp
      · simp [legTx]
    | succ j =>
      show (legTx nid l :: legsTxs (nid + 1) ls).find? _ = _
      rw [List.find?_cons_of_neg]
      · have heq : nid + (j + 1) = (nid + 1) + j := by omega
        rw [heq]
        have hj : j < ls.length := by
          have := hi
          simp at this
          omega
        rw [ih (nid + 1) j hj]
        rfl
      · simp [legTx]

/-- Claim C5: a batch of legs sharing one batch tag, applied to a
well-formed store none of whose existing transactions matches the tag;
calling `delete_transaction` with the id of ANY single leg reverses and
deletes all legs, restoring every account's balance to its pre-batch value
and leaving exactly the pre-batch transactions. -/
theorem batch_reverse_all_legs (s : LedgerState)
    (hwf : ∀ t ∈ s.transactions, t.id < s.nextTxId)
    (legs : List Leg) (b : List Char)
    (htag : ∀ l ∈ legs, extractBatch l.remark.toList = some b)
    (hcont : ∀ l ∈ legs, ilikeContains l.remark.toList b = true)
    (hold : ∀ t ∈ s.transactions, ilikeContains t.remark.toList b = false)
    (i : Nat) (hi : i < legs.length) :
    (∀ a, (delete_transaction (applyLegs s legs) (s.nextTxId + i)).1.balances a
      = s.balances a)
    ∧ (delete_transaction (applyLegs s legs) (s.nextTxId + i)).1.transactions
      = s.transactions := by
  have htx : (applyLegs s legs).transactions = s.transactions ++ legsTxs s.nextTxId legs :=
    applyLegs_transactions legs s
  have hfind : (applyLegs s legs).transactions.find?
      (fun x => decide (x.id = s.nextTxId + i)) = some (legTx (s.nextTxId + i) (legs.get ⟨i, hi⟩)) := by
    rw [htx, find?_id_in_suffix _ _ _ (fun x hx => by have := hwf x hx; omega)]
    exact legsTxs_find legs s.nextTxId i hi
  have hmem : legs.get ⟨i, hi⟩ ∈ legs := List.get_mem legs i hi
  have hb : extractBatch (legTx (s.nextTxId + i) (legs.get ⟨i, hi⟩)).remark.toList = some b :=
    htag (legs.get ⟨i, hi⟩) hmem
  have hred := delete_found_some hfind hb
  have hfilter : (applyLegs s legs).transactions.filter
      (fun t => ilikeContains t.remark.toList b) = legsTxs s.nextTxId legs := by
    rw [htx, List.filter_append]
    have h1 : s.transactions.filter (fun t => ilikeContains t.remark.toList b) = [] := by
      apply List.filter_eq_nil_iff.mpr
      intro x hx hc
      rw [hold x hx] at hc
      cases hc
    have h2 : (legsTxs s.nextTxId legs).filter
        (fun t => ilikeContains t.remark.toList b) = legsTxs s.nextTxId legs := by
      apply List.filter_eq_self.mpr
      intro x hx
      obtain ⟨l, hl, m, _, hxeq⟩ := legsTxs_mem legs s.nextTxId x hx
      rw [hxeq]
      exact hcont l hl
    rw [h1, h2, List.nil_append]
  constructor
  · intro a
    rw [hred, hfilter, foldl_reverseOne_balances, applyLegs_balances]
    ring
  · rw [hred, hfilter, foldl_reverseOne_transactions, htx, List.filter_append]
    have h1 : s.transactions.filter
        (fun x => decide (x.id ∉ (legsTxs s.nextTxId legs).map (fun t => t.id)))
        = s.transactions := by
      apply List.filter_eq_self.mpr
      intro x hx
      have hxid := hwf x hx
      simp only [decide_eq_true_eq, List.mem_map, not_exists, not_and]
      intro y hy
      obtain ⟨l, _, m, hm, hyeq⟩ := legsTxs_mem legs s.nextTxId y hy
      rw [hyeq]
      show ¬(m = x.id)
      omega
    have h2 : (legsTxs s.nextTxId legs).filter
        (fun x => decide (x.id ∉ (legsTxs s.nextTxId legs).map (fun t => t.id))) = [] := by
      apply List.filter_eq_nil_iff.mpr
      intro x hx hc
      simp only [decide_eq_true_eq] at hc
      exact hc (List.mem_map_of_mem (fun t => t.id) hx)
    rw [h1, h2, List.append_nil]

/-- Concrete store and legs for the Scenario C witness: bank account 1
holds 100, custodial account 2 holds 40; the batch is
Expense(15, bank) + VirtualExpense(15, custodial), both tagged
`[Batch:7]`. -/
def c5State : LedgerState :=
  { balances := fun a => if a = 1 then 100 else if a = 2 then 40 else 0,
    transactions := [], schedule := [], nextTxId := 1, nextSchedId := 1 }

def c5Legs : List Leg :=
  [{ date := ⟨2024, 3, 1⟩, amount := 15, description := "pay (Actual Payment)",
     type := .Expense, fromAccountId := some 1, toAccountId := none,
     category := "Others", remark := "Real payment [Batch:7]" },
   { date := ⟨2024, 3, 1⟩, amount := 15, description := "pay (Virtual Deduction)",
     type := .VirtualExpense, fromAccountId := some 2, toAccountId := none,
     category := "Others", remark := "Virtual deduction [Batch:7]" }]

def c5Tag : List Char := ("[Batch:7]").toList

/-- Witness for C5 (Scenario C): reversing the first leg's id restores both
accounts and deletes both legs. -/
theorem batch_reverse_all_legs_witness :
    (delete_transaction (applyLegs c5State c5Legs) 1).1.balances 1 = 100
    ∧ (delete_transaction (applyLegs c5State c5Legs) 1).1.balances 2 = 40
    ∧ (delete_transaction (applyLegs c5State c5Legs) 1).1.transactions = [] := by
  have h := batch_reverse_all_legs c5State (by simp [c5State]) c5Legs c5Tag
    (by decide) (by decide) (by simp [c5State]) 0 (by decide)
  refine ⟨?_, ?_, ?_⟩
  · have h1 := h.1 1
    rw [show c5State.balances 1 = 100 from by norm_num [c5State]] at h1
    exact h1
  · have h2 := h.1 2
    rw [show c5State.balances 2 = 40 from by norm_num [c5State]] at h2
    exact h2
  · exact h.2

/-! ## Scheduler lemmas (C6, C7, C10 machinery) -/

/-- The transaction rows a scheduler run creates for the processed items,
starting at id `nid`. -/
def schedNewTxs (nid : Nat) : List ScheduleEntry → List Tx
  | [] => []
  | it :: rest => mkSchedTx nid it :: schedNewTxs (nid + 1) rest

lemma processItem_transactions (s : LedgerState) (it : ScheduleEntry) :
    (processItem s it).transactions = s.transactions ++ [mkSchedTx s.nextTxId it] := by
  unfold processItem
  cases advanceDate it.frequency it.next_run_date <;> rfl

lemma processItem_nextTxId (s : LedgerState) (it : ScheduleEntry) :
    (processItem s it).nextTxId = s.nextTxId + 1 := by
  unfold processItem
  cases advanceDate it.frequency it.next_run_date <;> rfl

lemma foldl_processItem_transactions (items : List ScheduleEntry) (s : LedgerState) :
    (items.foldl processItem s).transactions = s.transactions ++ schedNewTxs s.nextTxId items := by
  induction items generalizing s with
  | nil => simp [schedNewTxs]
  | cons it rest ih =>
    simp only [List.foldl_cons]
    rw [ih, processItem_transactions, processItem_nextTxId, List.append_assoc]
    rfl

lemma schedNewTxs_mem (items : List ScheduleEntry) : ∀ (nid : Nat) (t : Tx),
    t ∈ schedNewTxs nid items → ∃ it ∈ items, ∃ m, t = mkSchedTx m it := by
  induction items with
  | nil => intro nid t ht; cases ht
  | cons it rest ih =>
    intro nid t ht
    rcases List.mem_cons.mp ht with h | h
    · exact ⟨it, List.mem_cons_self it rest, nid, h⟩
    · obtain ⟨it2, hit2, m, hm⟩ := ih (nid + 1) t h
      exact ⟨it2, List.mem_cons_of_mem it hit2, m, hm⟩

/-! ## Claim C6 -/

/-- Schedule entry whose stored type (`Increase Loan`) differs from what
account presence implies (to-account only ⇒ `Income`). -/
def c6Entry : ScheduleEntry :=
  { id := 1, description := "loan bump", amount := 5, type := some TxType.IncreaseLoan,
    from_account_id := none, to_account_id := some 2, frequency := .OneTime,
    next_run_date := ⟨2024, 1, 1⟩, is_manual := false, category := "c" }

def c6State : LedgerState :=
  { balances := fun _ => 0, transactions := [], schedule := [c6Entry],
    nextTxId := 1, nextSchedId := 2 }

def c6Today : Date := ⟨2024, 1, 2⟩

/-- Counterexample to C6 as stated: the due entry stores the explicit type
`Increase Loan`, yet the scheduler materializes the transaction as
`Income` — the stored type is never consulted. -/
theorem sched_type_counterexample :
    c6Entry.type = some TxType.IncreaseLoan
    ∧ ((process_scheduled_transactions c6Today c6State).1.transactions.map
        (fun t => t.type)) = [TxType.Income]
    ∧ TxType.Income ≠ TxType.IncreaseLoan := by
  refine ⟨rfl, by decide, by decide⟩

/-- Claim C6 (amended): every transaction the scheduler materializes has
its type inferred from account presence alone — both accounts ⇒ Transfer,
to-account only ⇒ Income, otherwise ⇒ Expense (`classify`) — ignoring any
stored type on the entry, and is dated with the entry's `next_run_date`. -/
theorem sched_type_inferred (today : Date) (s : LedgerState) (t : Tx)
    (hnew : t ∈ (process_scheduled_transactions today s).1.transactions)
    (holdm : t ∉ s.transactions) :
    ∃ item, item ∈ s.schedule ∧ dle item.next_run_date today = true
      ∧ t.type = classify item ∧ t.date = item.next_run_date := by
  have hch : (process_scheduled_transactions today s).1.transactions
      = s.transactions ++ schedNewTxs s.nextTxId (dueEntries today s) :=
    foldl_processItem_transactions (dueEntries today s) s
  rw [hch] at hnew
  rcases List.mem_append.mp hnew with h | h
  · exact absurd h holdm
  · obtain ⟨it, hit, m, hm⟩ := schedNewTxs_mem (dueEntries today s) s.nextTxId t h
    have hmem := List.mem_filter.mp hit
    exact ⟨it, hmem.1, hmem.2, by rw [hm]; rfl, by rw [hm]; rfl⟩

/-- Witness for the amended C6, at the concrete counterexample state: the
materialized transaction's type is `classify c6Entry` and its date the
entry's due date. -/
theorem sched_type_inferred_witness :
    ∃ item, item ∈ c6State.schedule ∧ dle item.next_run_date c6Today = true
      ∧ (mkSchedTx 1 c6Entry).type = classify item
      ∧ (mkSchedTx 1 c6Entry).date = item.next_run_date :=
  sched_type_inferred c6Today c6State (mkSchedTx 1 c6Entry) (by decide) (by simp [c6State])

/-! ## Claim C7 -/

/-- An entry is "advance-safe" for `today`: once executed it is either
deleted (One-Time) or its advanced due date is past `today`. -/
def advOkB (today : Date) (e : ScheduleEntry) : Bool :=
  match advanceDate e.frequency e.next_run_date with
  | none => true
  | some nd => !(dle nd today)

lemma processItem_schedule_cases {s : LedgerState} {it e : ScheduleEntry}
    (h : e ∈ (processItem s it).schedule) :
    (e ∈ s.schedule ∧ e.id ≠ it.id) ∨
    (∃ e0, e0 ∈ s.schedule ∧
      ∃ nd, advanceDate it.frequency it.next_run_date = some nd ∧
        e = { e0 with next_run_date := nd }) := by
  unfold processItem at h
  rcases hadv : advanceDate it.frequency it.next_run_date with _ | nd <;>
    simp only [hadv] at h
  · have hm := List.mem_filter.mp h
    exact Or.inl ⟨hm.1, of_decide_eq_true hm.2⟩
  · obtain ⟨e0, he0, heq⟩ := List.mem_map.mp h
    by_cases hid : e0.id = it.id
    · rw [if_pos hid] at heq
      exact Or.inr ⟨e0, he0, nd, rfl, heq.symm⟩
    · rw [if_neg hid] at heq
      rw [← heq]
      exact Or.inl ⟨he0, hid⟩

lemma foldl_processItem_not_due (today : Date) :
    ∀ (items : List ScheduleEntry) (s : LedgerState),
    (items.map (fun e => e.id)).Nodup →
    (∀ it ∈ items, advOkB today it = true) →
    (∀ e ∈ s.schedule, e.id ∈ items.map (fun x => x.id) ∨ dle e.next_run_date today = false) →
    ∀ e ∈ (items.foldl processItem s).schedule, dle e.next_run_date today = false := by
  intro items
  induction items with
  | nil =>
    intro s _ _ h3 e he
    rcases h3 e he with h | h
    · cases h
    · exact h
  | cons it its ih =>
    intro s hnd hadv h3 e he
    simp only [List.foldl_cons] at he
    rw [List.map_cons] at hnd
    refine ih (processItem s it) (List.nodup_cons.mp hnd).2
      (fun x hx => hadv x (List.mem_cons_of_mem it hx)) ?_ e he
    intro e2 he2
    rcases processItem_schedule_cases he2 with ⟨hmem, hne⟩ | ⟨e0, _, nd, hadvEq, heq⟩
    · rcases h3 e2 hmem with hin | hnd2
      · rw [List.map_cons] at hin
        rcases List.mem_cons.mp hin with h | h
        · exact absurd h hne
        · exact Or.inl h
      · exact Or.inr hnd2
    · refine Or.inr ?_
      have h4 := hadv it (List.mem_cons_self it its)
      simp only [advOkB, hadvEq] at h4
      have h5 : dle nd today = false := by simpa using h4
      rw [heq]
      exact h5

/-- Stale Daily schedule entry: due 2024-01-09, processed as of
2024-01-10; the advanced due date 2024-01-10 is still due, so a second run
on the same day processes it again. -/
def c7Entry : ScheduleEntry :=
  { id := 1, description := "rent", amount := 5, type := none,
    from_account_id := some 1, to_account_id := none, frequency := .Daily,
    next_run_date := ⟨2024, 1, 9⟩, is_manual := false, category := "c" }

def c7State : LedgerState :=
  { balances := fun _ => 0, transactions := [], schedule := [c7Entry],
    nextTxId := 1, nextSchedId := 2 }

def c7Today : Date := ⟨2024, 1, 10⟩

/-- Counterexample to C7 as stated: with an overdue Daily entry, the second
`process_scheduled_transactions` on the same as-of date processes 1 entry,
not 0 (nothing was added between the runs). -/
theorem sched_idempotence_counterexample :
    (process_scheduled_transactions c7Today c7State).2 = 1
    ∧ (process_scheduled_transactions c7Today
        (process_scheduled_transactions c7Today c7State).1).2 = 1
    ∧ (1 : Nat) ≠ 0 := by
  refine ⟨by decide, by decide, by decide⟩

/-- Claim C7 (amended): running the scheduler twice against the same as-of
date processes zero entries the second time, provided no due entry is
overdue by a full period — i.e. every due entry is One-Time or advances to
a date past the as-of date.  (The due date of an entry strictly advances on
execution, so a given due date is never executed twice; but an entry
overdue by more than one period is processed again, at its next due date,
by the second run.) -/
theorem sched_second_run_zero (today : Date) (s : LedgerState)
    (hnd : (s.schedule.map (fun e => e.id)).Nodup)
    (hadv : ∀ e ∈ s.schedule, dle e.next_run_date today = true → advOkB today e = true) :
    (process_scheduled_transactions today
      (process_scheduled_transactions today s).1).2 = 0 := by
  have hall : ∀ e ∈ ((dueEntries today s).foldl processItem s).schedule,
      dle e.next_run_date today = false := by
    apply foldl_processItem_not_due today (dueEntries today s) s
    · exact List.Nodup.sublist
        (List.Sublist.map (fun e : ScheduleEntry => e.id)
          (List.filter_sublist s.schedule)) hnd
    · intro it hit
      have hm := List.mem_filter.mp hit
      exact hadv it hm.1 hm.2
    · intro e he
      cases hdue : dle e.next_run_date today
      · exact Or.inr rfl
      · exact Or.inl (List.mem_map_of_mem (fun x => x.id)
          (List.mem_filter.mpr ⟨he, hdue⟩))
  show (dueEntries today ((dueEntries today s).foldl processItem s)).length = 0
  rw [List.length_eq_zero]
  apply List.filter_eq_nil_iff.mpr
  intro e he hc
  rw [hall e he] at hc
  cases hc

/-- Entry due exactly on the as-of date (not overdue), for the C7
witness. -/
def c7WEntry : ScheduleEntry :=
  { id := 1, description := "rent", amount := 5, type := none,
    from_account_id := some 1, to_account_id := none, frequency := .Daily,
    next_run_date := ⟨2024, 1, 10⟩, is_manual := false, category := "c" }

def c7WState : LedgerState :=
  { balances := fun _ => 0, transactions := [], schedule := [c7WEntry],
    nextTxId := 1, nextSchedId := 2 }

/-- Witness for the amended C7: with the single entry due exactly today,
the second run processes zero entries. -/
theorem sched_second_run_zero_witness :
    (process_scheduled_transactions c7Today
      (process_scheduled_transactions c7Today c7WState).1).2 = 0 :=
  sched_second_run_zero c7Today c7WState (by decide) (by decide)

/-! ## Claim C10 -/

lemma find?_id_of_nodup {l : List Tx} (hnd : (l.map (fun t => t.id)).Nodup)
    {u : Tx} (hm : u ∈ l) :
    l.find? (fun x => decide (x.id = u.id)) = some u := by
  induction l with
  | nil => cases hm
  | cons a as ih =>
    rw [List.map_cons] at hnd
    obtain ⟨hhead, htail⟩ := List.nodup_cons.mp hnd
    rcases List.mem_cons.mp hm with h | h
    · subst h
      rw [List.find?_cons_of_pos]
      simp
    · have hne : a.id ≠ u.id := fun hc =>
        hhead (hc ▸ List.mem_map_of_mem (fun t => t.id) h)
      rw [List.find?_cons_of_neg]
      · exact ih htail h
      · simp [hne]

lemma extractBatch_none_of_not_contains {r : List Char}
    (h : containsSubB r batchMark = false) : extractBatch r = none := by
  unfold extractBatch
  rcases hf : findSub r batchMark with _ | i
  · rfl
  · unfold containsSubB at h
    rw [hf] at h
    cases h

lemma signedEffect_not_referenced (u : Tx) (a : Nat)
    (hf : u.fromAccountId ≠ some a) (ht : u.toAccountId ≠ some a) :
    signedEffect u a = 0 := by
  cases hty : u.type <;>
    simp [signedEffect, txEff, hty, effOn_not_target _ _ _ hf, effOn_not_target _ _ _ ht]

/-- Claim C10: transactions materialized by the scheduler carry no remark
(hence no batch tag), and reversing a transaction whose remark has no batch
marker deletes only that transaction and adjusts only its own accounts'
balances, leaving every other transaction and every other balance
unchanged. -/
theorem sched_tx_single_reversal
    (today : Date) (s : LedgerState) (t : Tx)
    (hnew : t ∈ (process_scheduled_transactions today s).1.transactions)
    (holdm : t ∉ s.transactions)
    (s2 : LedgerState) (u : Tx)
    (hmem : u ∈ s2.transactions)
    (hnd : (s2.transactions.map (fun x => x.id)).Nodup)
    (hu : containsSubB u.remark.toList batchMark = false) :
    t.remark = ""
    ∧ (delete_transaction s2 u.id).1.transactions
        = s2.transactions.filter (fun x => decide (x.id ≠ u.id))
    ∧ (∀ x ∈ s2.transactions, x ≠ u → x ∈ (delete_transaction s2 u.id).1.transactions)
    ∧ (∀ a, (delete_transaction s2 u.id).1.balances a = s2.balances a - signedEffect u a)
    ∧ (∀ a, u.fromAccountId ≠ some a → u.toAccountId ≠ some a →
        (delete_transaction s2 u.id).1.balances a = s2.balances a) := by
  have hrem : t.remark = "" := by
    have hch : (process_scheduled_transactions today s).1.transactions
        = s.transactions ++ schedNewTxs s.nextTxId (dueEntries today s) :=
      foldl_processItem_transactions (dueEntries today s) s
    rw [hch] at hnew
    rcases List.mem_append.mp hnew with h | h
    · exact absurd h holdm
    · obtain ⟨it, _, m, hm⟩ := schedNewTxs_mem (dueEntries today s) s.nextTxId t h
      rw [hm]
      rfl
  have hfind : s2.transactions.find? (fun x => decide (x.id = u.id)) = some u :=
    find?_id_of_nodup hnd hmem
  have hred : (delete_transaction s2 u.id).1 = [u].foldl reverseOne s2 :=
    delete_found_none hfind (extractBatch_none_of_not_contains hu)
  have htr : (delete_transaction s2 u.id).1.transactions
      = s2.transactions.filter (fun x => decide (x.id ≠ u.id)) := by
    rw [hred, foldl_reverseOne_transactions]
    apply List.filter_congr
    intro x _
    simp
  refine ⟨hrem, htr, ?_, ?_, ?_⟩
  · intro x hx hxu
    rw [htr]
    apply List.mem_filter.mpr
    refine ⟨hx, ?_⟩
    have hne : x.id ≠ u.id := fun hc => hxu (nodup_id_inj hnd hx hmem hc)
    simp [hne]
  · intro a
    rw [hred, foldl_reverseOne_balances]
    have : txSum [u] a = signedEffect u a := by simp [txSum]
    rw [this]
  · intro a hfa hta
    rw [hred, foldl_reverseOne_balances]
    have h1 : txSum [u] a = signedEffect u a := by simp [txSum]
    rw [h1, signedEffect_not_referenced u a hfa hta]
    ring

/-- Concrete scheduler-materialized transaction and store for the C10
witness: account 2 holds 30 after the scheduled Income of 5 was
materialized; reversing it leaves no transactions and balance 25. -/
def c10Entry : ScheduleEntry :=
  { id := 1, description := "sub", amount := 5, type := none,
    from_account_id := none, to_account_id := some 2, frequency := .OneTime,
    next_run_date := ⟨2024, 4, 1⟩, is_manual := false, category := "c" }

def c10State : LedgerState :=
  { balances := fun _ => 0, transactions := [], schedule := [c10Entry],
    nextTxId := 1, nextSchedId := 2 }

def c10Today : Date := ⟨2024, 4, 2⟩

def c10Tx : Tx := mkSchedTx 1 c10Entry

def c10Store : LedgerState :=
  { balances := fun a => if a = 2 then 30 else 0, transactions := [c10Tx],
    schedule := [], nextTxId := 2, nextSchedId := 1 }

/-- Witness for C10 at concrete inputs. -/
theorem sched_tx_single_reversal_witness :
    c10Tx.remark = ""
    ∧ (delete_transaction c10Store c10Tx.id).1.transactions = []
    ∧ (delete_transaction c10Store c10Tx.id).1.balances 2 = 25 := by
  have h := sched_tx_single_reversal c10Today c10State c10Tx (by decide) (by simp [c10State])
    c10Store c10Tx (by simp [c10Store]) (by decide) (by decide)
  refine ⟨h.1, ?_, ?_⟩
  · rw [h.2.1]
    decide
  · rw [h.2.2.2.1 2]
    show c10Store.balances 2 - signedEffect c10Tx 2 = 25
    have h1 : c10Store.balances 2 = 30 := by norm_num [c10Store]
    have h2 : signedEffect c10Tx 2 = 5 := by
      simp [c10Tx, mkSchedTx, signedEffect, txEff, c10Entry, classify, truthyId, effOn]
    rw [h1, h2]
    norm_num

/-! ## Claim C8 -/

/-- The behind-branch of the Goals card, under the code's own expected
balance: when the balance is short of `expectedBalCode`, the card reports
behind by exactly the difference (the goal-reached branch cannot fire then,
since the code's expected balance never exceeds the goal amount). -/
lemma goalStatus_eq_behind (goal balance : ℚ) (term : Nat) (g today : Date)
    (hterm : 0 < term)
    (hb : balance < expectedBalCode goal term g today) :
    goalStatus goal balance term (some g) today =
      GoalStatus.behind (expectedBalCode goal term g today - balance) := by
  have hnotfirst : ¬(goal ≤ balance ∧ 0 < goal) := by
    rintro ⟨hgb, hgpos⟩
    have htq : (0 : ℚ) < (term : ℚ) := by exact_mod_cast hterm
    have hle : expectedBalCode goal term g today ≤ goal := by
      unfold expectedBalCode monthlyContrib
      rw [if_pos hterm]
      have h0 : (0 : Int) ≤ monthsElapsedCode term g today := le_max_left 0 _
      have h1 : monthsElapsedCode term g today ≤ (term : Int) := by
        unfold monthsElapsedCode
        apply max_le
        · exact Int.ofNat_nonneg term
        · exact min_le_left _ _
      have h1q : (monthsElapsedCode term g today : ℚ) ≤ (term : ℚ) := by
        exact_mod_cast h1
      have hdiv : (0 : ℚ) ≤ goal / (term : ℚ) := div_nonneg hgpos.le htq.le
      calc (monthsElapsedCode term g today : ℚ) * (goal / (term : ℚ))
          ≤ (term : ℚ) * (goal / (term : ℚ)) := mul_le_mul_of_nonneg_right h1q hdiv
        _ = goal := by
            rw [mul_comm]
            exact div_mul_cancel₀ goal (ne_of_gt htq)
    linarith
  simp only [goalStatus]
  rw [if_neg hnotfirst, if_pos hb]

def c8Goal : Date := ⟨2024, 10, 15⟩

def c8Today : Date := ⟨2024, 1, 15⟩

/-- The code's expected balance at the Scenario E instance: the `+ 1`
offset makes it 400 (4 months × 100), not the spec's 300. -/
lemma c8_expected_eval : expectedBalCode 1200 12 c8Goal c8Today = 400 := by
  have hml : monthsLeft c8Goal c8Today = 9 := by decide
  have hme : monthsElapsedCode 12 c8Goal c8Today = 4 := by
    unfold monthsElapsedCode
    rw [hml]
    decide
  unfold expectedBalCode monthlyContrib
  rw [hme]
  norm_num

/-- Counterexample to C8 as stated: goal 1200, term 12, goal date 9 months
away, balance 250.  The spec formula gives expected 300 and behind-by 50;
the code computes months elapsed with an extra `+ 1`, expected 400, and
reports behind by 150. -/
theorem goal_progress_counterexample :
    goalStatus 1200 250 12 (some c8Goal) c8Today = GoalStatus.behind 150
    ∧ expectedBalSpec 1200 12 c8Goal c8Today = 300
    ∧ (150 : ℚ) ≠ 50 := by
  refine ⟨?_, ?_, by norm_num⟩
  · rw [goalStatus_eq_behind 1200 250 12 c8Goal c8Today (by norm_num)
      (by rw [c8_expected_eval]; norm_num)]
    rw [c8_expected_eval]
    norm_num
  · have hml : monthsLeft c8Goal c8Today = 9 := by decide
    have hm : monthsElapsedSpec 12 c8Goal c8Today = 3 := by
      unfold monthsElapsedSpec
      rw [hml]
      decide
    unfold expectedBalSpec
    rw [hm]
    norm_num

/-- Claim C8 (amended): with `monthsElapsed = term − monthsRemaining + 1`
(the code adds one to count the current month), clamped to `[0, term]`, and
`expectedBalanceToday = monthsElapsed × (goalAmount / term)`, the account is
reported behind by exactly `expectedBalanceToday − balance` whenever
`balance < expectedBalanceToday`. -/
theorem goal_behind_amount (goal balance : ℚ) (term : Nat) (g today : Date)
    (hterm : 0 < term)
    (hbehind : balance < expectedBalCode goal term g today) :
    goalStatus goal balance term (some g) today =
      GoalStatus.behind
        (((max 0 (min (term : Int) ((term : Int) - monthsLeft g today + 1)) : Int) : ℚ)
          * (goal / (term : ℚ)) - balance) := by
  rw [goalStatus_eq_behind goal balance term g today hterm hbehind]
  congr 1
  unfold expectedBalCode monthsElapsedCode monthlyContrib
  rw [if_pos hterm]

/-- Witness for the amended C8 at the Scenario E numbers. -/
theorem goal_behind_amount_witness :
    goalStatus 1200 250 12 (some c8Goal) c8Today =
      GoalStatus.behind
        (((max 0 (min (12 : Int) ((12 : Int) - monthsLeft c8Goal c8Today + 1)) : Int) : ℚ)
          * ((1200 : ℚ) / (12 : ℚ)) - 250) :=
  goal_behind_amount 1200 250 12 c8Goal c8Today (by norm_num)
    (by rw [c8_expected_eval]; norm_num)

/-! ## Claim C9 -/

/-- Folding the five per-type raw-balance totals into one signed sum. -/
lemma overview_weights (l : List Account) :
    sumBal (l.filter (fun a => decide (a.type = AccType.Bank)))
      - sumBal (l.filter (fun a => decide (a.type = AccType.CreditCard)))
      - sumBal (l.filter (fun a => decide (a.type = AccType.Custodial)))
      + sumBal (l.filter (fun a => decide (a.type = AccType.SinkingFund)))
      + sumBal (l.filter (fun a => decide (a.type = AccType.Receivable)))
      = (l.map (fun a => nwWeight a.type * a.balance)).sum := by
  induction l with
  | nil => simp [sumBal]
  | cons a as ih =>
    cases hty : a.type <;>
      (simp only [List.map_cons, List.sum_cons, hty]
       simp [List.filter_cons, hty, sumBal]
       simp only [nwWeight]
       simp only [sumBal, nwWeight] at ih
       linarith)

/-- The Overview headline net worth as a single signed sum over active
SGD accounts (raw balances, `include_net_worth` ignored, Loan and
Investment weighted zero). -/
lemma overviewNetWorth_eq_weighted (accounts : List Account) :
    overviewNetWorth accounts =
      ((accounts.filter (fun a => a.is_active && decide (a.currency = "SGD"))).map
        (fun a => nwWeight a.type * a.balance)).sum := by
  have hc : (accounts.filter (fun a => a.is_active)).filter
        (fun a => decide (a.currency = "SGD"))
      = accounts.filter (fun a => a.is_active && decide (a.currency = "SGD")) := by
    rw [List.filter_filter]
    apply List.filter_congr
    intro x _
    exact Bool.and_comm _ _
  simp only [overviewNetWorth]
  rw [hc]
  exact overview_weights _

def c9Accounts : List Account :=
  [{ id := 1, name := "US Bank", type := AccType.Bank, balance := 100, currency := "USD",
     manual_exchange_rate := 2, include_net_worth := true, is_liquid_asset := true,
     goal_amount := 0, goal_date := none, is_active := true, remark := "" }]

/-- Counterexample to C9 as stated: an active USD bank account with
`include_net_worth` set, balance 100, exchange rate 2.  The spec's headline
formula (no currency restriction, balance × rate) gives 200; the code's
headline net worth is 0 because the account is filtered out by the
SGD-only restriction (and no exchange rate is ever applied). -/
theorem net_worth_counterexample :
    overviewNetWorth c9Accounts = 0
    ∧ netWorthHeadlineSpec c9Accounts = 200
    ∧ (0 : ℚ) ≠ 200 := by
  refine ⟨?_, ?_, by norm_num⟩
  · rw [overviewNetWorth_eq_weighted]
    simp [c9Accounts]
  · simp [netWorthHeadlineSpec, c9Accounts, nwWeight]
    norm_num

/-- Claim C9 (amended): the headline net worth is the signed sum
`Bank − CreditCard − Custodial + SinkingFund + Receivable` of RAW balances
over accounts that are active AND have currency "SGD"; no exchange-rate
multiplication is applied and `include_net_worth` is not consulted (Loan
and Investment accounts never contribute). -/
theorem overview_net_worth_formula (accounts : List Account) :
    overviewNetWorth accounts =
      ((accounts.filter (fun a => a.is_active && decide (a.currency = "SGD"))).map
        (fun a => nwWeight a.type * a.balance)).sum :=
  overviewNetWorth_eq_weighted accounts

end ExpenseTracker
